import Mathlib

/-!
Verification of `snapshotbackup` (hbschr/snapshotbackup).

A shallow embedding, in Lean 4, of the parts of the `snapshotbackup` Python
program that the specification's claims are about:

* `snapshotbackup/volume.py` — path confinement (`BaseVolume._path_join`,
  built from `os.path.join` / `os.path.normpath` / `os.path.commonpath`)
  and the lockfile context manager (`Lock`);
* `snapshotbackup/timestamps.py` — the calendrical predicates
  `is_same_hour` / `is_same_day` / `is_same_week` and `earliest_time`;
* `snapshotbackup/worker.py` — the `Backup` record, the retention cascade
  `Backup._retain`, `Worker.get_backups` and the lock discipline of
  `Worker.make_backup`;
* `snapshotbackup/subprocess.py` — the `rsync` argument vector.

Python strings are modelled as `List Char` (named `Str` below); Python
`datetime` objects as a record of calendar fields with an optional utc-offset
(`none` = naive); functions that can raise return `Option`/`Except`.
-/

namespace SnapshotBackup

/-- Python strings are modelled as lists of characters. -/
abbrev Str := List Char

/-! ## Python string primitives

`str.split(sep)` for a one-character separator, `sep.join(strs)`
(`strIntercalate`), lexicographic `<` on strings (`strLtB`, Python compares
by code point) and on lists of strings (`listStrLeB`, Python list
comparison), and a whole-list prefix test (`listStarts`). -/

/-- Python `s.split('/')` (here for an arbitrary one-character separator):
splits at every occurrence, keeping empty pieces; `''.split(c) == ['']`. -/
def pySplit (sep : Char) : Str → List Str
  | [] => [[]]
  | c :: rest =>
    if c = sep then [] :: pySplit sep rest
    else
      match pySplit sep rest with
      | [] => [[c]]
      | h :: t => (c :: h) :: t

/-- Python `sep.join(strs)` for a one-character separator. -/
def strIntercalate (sep : Char) : List Str → Str
  | [] => []
  | [s] => s
  | s :: rest => s ++ sep :: strIntercalate sep rest

/-- Python `<` on strings: lexicographic by code point. -/
def strLtB : Str → Str → Bool
  | [], [] => false
  | [], _ :: _ => true
  | _ :: _, [] => false
  | a :: as, b :: bs => if a.val < b.val then true else if b.val < a.val then false else strLtB as bs

/-- Python `<=` on lists of strings (lexicographic, element compare by `<`
on strings); used by `min`/`max` inside `os.path.commonpath`. -/
def listStrLeB : List Str → List Str → Bool
  | [], _ => true
  | _ :: _, [] => false
  | a :: as, b :: bs => if strLtB a b then true else if strLtB b a then false else listStrLeB as bs

/-- Test `listStarts small big = true`: holds iff `small` is a leading segment of `big`
(component-wise equality). -/
def listStarts : List Str → List Str → Bool
  | [], _ => true
  | _ :: _, [] => false
  | a :: as, b :: bs => a = b && listStarts as bs

/-! ## `volume.py`: path confinement

`BaseVolume._path_join` is
```python
joined_path = os.path.normpath(os.path.join(self.path, path))
if not os.path.commonpath((self.path, joined_path)) == self.path:
    raise RuntimeError(f'invalid path, join {self.path} with {path}')
return joined_path
```
We embed CPython's `posixpath.join`, `posixpath.normpath` and
`posixpath.commonpath` (for a pair of paths). -/

/-- Python `s.startswith('/')`. -/
def startsSlash : Str → Bool
  | '/' :: _ => true
  | _ => false

/-- Python `s.endswith('/')`. -/
def endsSlash (s : Str) : Bool := s.getLast? == some '/'

/-- CPython `posixpath.join(a, b)`: `b` if absolute, else concatenation with `'/'`
inserted unless `a` is empty or already ends in `'/'`. -/
def pyJoin (a b : Str) : Str :=
  if startsSlash b then b
  else if a = [] ∨ endsSlash a = true then a ++ b
  else a ++ '/' :: b

/-- POSIX allows one or two initial slashes to be meaningful; `normpath`
keeps exactly two slashes iff the path starts with exactly two
(`path.startswith('//') and not path.startswith('///')`). -/
def initialSlashes (s : Str) : Nat :=
  if startsSlash s then
    if startsSlash (s.drop 1) && !startsSlash (s.drop 2) then 2 else 1
  else 0

/-- One step of `posixpath.normpath`'s component loop: skip `''` and `'.'`,
append ordinary components (and `'..'` when it cannot be cancelled), pop on
a cancellable `'..'`. -/
def npStep (initSlashes : Nat) (acc : List Str) (comp : Str) : List Str :=
  if comp = [] ∨ comp = ['.'] then acc
  else if comp ≠ ['.', '.'] ∨ (initSlashes = 0 ∧ acc = []) ∨
      (acc ≠ [] ∧ acc.getLast? = some ['.', '.']) then acc ++ [comp]
  else if acc ≠ [] then acc.dropLast
  else acc

/-- CPython `posixpath.normpath`. -/
def pyNormpath (s : Str) : Str :=
  if s = [] then ['.']
  else
    let init := initialSlashes s
    let newComps := (pySplit '/' s).foldl (npStep init) []
    let res := List.replicate init '/' ++ strIntercalate '/' newComps
    if res = [] then ['.'] else res

/-- The components `os.path.commonpath` compares: split on `'/'`, drop empty
and `'.'` pieces. -/
def comps (s : Str) : List Str :=
  (pySplit '/' s).filter (fun c => !(c == [] || c == ['.']))

/-- The first-difference scan of `posixpath.commonpath` (`common = s1[:i]`
at the first index where `s1` and `s2` differ, else `s1`): the longest
common leading segment. -/
def cpScan : List Str → List Str → List Str
  | [], _ => []
  | _ :: _, [] => []
  | a :: as, b :: bs => if a = b then a :: cpScan as bs else []

/-- CPython `posixpath.commonpath((p1, p2))`; `none` models the `ValueError` raised
on mixing absolute and relative paths. -/
def pyCommonpath2 (p1 p2 : Str) : Option Str :=
  if startsSlash p1 ≠ startsSlash p2 then none
  else
    let s1 := comps p1
    let s2 := comps p2
    let mn := if listStrLeB s1 s2 then s1 else s2
    let mx := if listStrLeB s1 s2 then s2 else s1
    let common := cpScan mn mx
    some ((if startsSlash p1 then ['/'] else []) ++ strIntercalate '/' common)

/-- Errors `_path_join` can raise. -/
inductive PathErr where
  | runtimeError
  | valueError
deriving DecidableEq, Repr

/-- Model of `BaseVolume._path_join(path)` over a volume with base path `basePath`:
`joined_path = normpath(join(base, path))`; raise `RuntimeError` unless
`commonpath((base, joined_path)) == base`; else return `joined_path`. -/
def path_join (basePath sub : Str) : Except PathErr Str :=
  match pyCommonpath2 basePath (pyNormpath (pyJoin basePath sub)) with
  | none => .error .valueError
  | some cp =>
    if cp = basePath then .ok (pyNormpath (pyJoin basePath sub))
    else .error .runtimeError

/-! ## Python `datetime` model

The program manipulates `datetime.datetime` values (possibly timezone-aware).
We model them as Gregorian calendar fields plus an optional utc offset in
minutes (`none` = naive). The calendar arithmetic (`_is_leap`,
`_days_before_month`, `_days_before_year`, `_ymd2ord`, `_isoweek1monday`,
`isocalendar`) mirrors CPython's `datetime` module. Comparison and
subtraction of two datetimes require equal awareness (Python raises
`TypeError` otherwise, modelled by `none`); aware values compare by their
utc instant, naive values by their fields. -/

/-- CPython `datetime._is_leap`. -/
def isLeapYear (y : Nat) : Bool := y % 4 == 0 && (y % 100 != 0 || y % 400 == 0)

/-- CPython `datetime._days_in_month`. -/
def daysInMonth (y m : Nat) : Nat :=
  match m with
  | 1 => 31
  | 2 => if isLeapYear y then 29 else 28
  | 3 => 31
  | 4 => 30
  | 5 => 31
  | 6 => 30
  | 7 => 31
  | 8 => 31
  | 9 => 30
  | 10 => 31
  | 11 => 30
  | 12 => 31
  | _ => 0

/-- CPython `datetime._days_before_month`. -/
def daysBeforeMonth (y m : Nat) : Nat :=
  (match m with
   | 1 => 0
   | 2 => 31
   | 3 => 59
   | 4 => 90
   | 5 => 120
   | 6 => 151
   | 7 => 181
   | 8 => 212
   | 9 => 243
   | 10 => 273
   | 11 => 304
   | 12 => 334
   | _ => 0)
  + (if 2 < m ∧ isLeapYear y = true then 1 else 0)

/-- CPython `datetime._days_before_year`. -/
def daysBeforeYear (y : Nat) : Nat :=
  (y - 1) * 365 + (y - 1) / 4 - (y - 1) / 100 + (y - 1) / 400

/-- Number of days in year `y`. -/
def daysInYear (y : Nat) : Nat := if isLeapYear y then 366 else 365

/-- CPython `datetime._ymd2ord`: proleptic Gregorian ordinal
(`0001-01-01` is day 1). -/
def ymd2ord (y m d : Nat) : Nat := daysBeforeYear y + daysBeforeMonth y m + d

/-- A Python `datetime.datetime` with zero microseconds. `utcoffset` is the
timezone offset in minutes (`none` = naive). -/
structure DateTime where
  year : Nat
  month : Nat
  day : Nat
  hour : Nat
  minute : Nat
  second : Nat
  utcoffset : Option Int
deriving DecidableEq, Repr

/-- Field ranges `datetime.datetime` enforces at construction. -/
def Valid (dt : DateTime) : Prop :=
  1 ≤ dt.year ∧ 1 ≤ dt.month ∧ dt.month ≤ 12 ∧
  1 ≤ dt.day ∧ dt.day ≤ daysInMonth dt.year dt.month ∧
  dt.hour < 24 ∧ dt.minute < 60 ∧ dt.second < 60

instance (dt : DateTime) : Decidable (Valid dt) := by
  unfold Valid
  infer_instance

/-- Python `dt.toordinal()`. -/
def toOrdinal (dt : DateTime) : Nat := ymd2ord dt.year dt.month dt.day

/-- Seconds since local midnight. -/
def secondsOfDay (dt : DateTime) : Nat :=
  dt.hour * 3600 + dt.minute * 60 + dt.second

/-- Seconds of the local calendar instant since a fixed epoch
(`0001-01-01 00:00` = 86400). -/
def naiveEpoch (dt : DateTime) : Int :=
  (toOrdinal dt : Int) * 86400 + (secondsOfDay dt : Int)

/-- The key Python uses to order datetimes: aware values compare by utc
instant (local fields minus offset), naive values by their fields. -/
def dtKey (dt : DateTime) : Int := naiveEpoch dt - 60 * dt.utcoffset.getD 0

/-- Two datetimes can be compared/subtracted iff both are naive or both
aware (else Python raises `TypeError`). -/
def dtCompat (a b : DateTime) : Bool := a.utcoffset.isSome == b.utcoffset.isSome

/-- Python `a < b`; `none` models `TypeError` on naive/aware mix. -/
def dtLt (a b : DateTime) : Option Bool :=
  if dtCompat a b then some (decide (dtKey a < dtKey b)) else none

/-- Python `a <= b`. -/
def dtLe (a b : DateTime) : Option Bool :=
  if dtCompat a b then some (decide (dtKey a ≤ dtKey b)) else none

/-- Python `a - b` in whole seconds (microseconds are always zero here). -/
def dtSub (a b : DateTime) : Option Int :=
  if dtCompat a b then some (dtKey a - dtKey b) else none

/-- CPython `datetime._isoweek1monday`: ordinal of the Monday starting ISO
week 1 of `year` (`firstweekday = (firstday + 6) % 7`, Monday = 0; back up
to that Monday, or forward a week when Jan 1 falls after a Thursday).
For the positive modulus 7, Lean's Euclidean `%`/`/` on `Int` agree with
Python's floor `%`/`//`. -/
def isoweek1monday (year : Nat) : Int :=
  if 3 < ((ymd2ord year 1 1 : Int) + 6) % 7 then
    (ymd2ord year 1 1 : Int) - ((ymd2ord year 1 1 : Int) + 6) % 7 + 7
  else
    (ymd2ord year 1 1 : Int) - ((ymd2ord year 1 1 : Int) + 6) % 7

/-- CPython `date.isocalendar()`: (ISO year, ISO week number, ISO weekday),
computed from the local calendar fields via
`week, day = divmod(today - week1monday, 7)` with the under/overflow
branches into the previous/next ISO year. -/
def isocalendar (dt : DateTime) : Int × Int × Int :=
  if ((toOrdinal dt : Int) - isoweek1monday dt.year) / 7 < 0 then
    (((dt.year - 1 : Nat) : Int),
     ((toOrdinal dt : Int) - isoweek1monday (dt.year - 1)) / 7 + 1,
     ((toOrdinal dt : Int) - isoweek1monday (dt.year - 1)) % 7 + 1)
  else if 52 ≤ ((toOrdinal dt : Int) - isoweek1monday dt.year) / 7 ∧
      isoweek1monday (dt.year + 1) ≤ (toOrdinal dt : Int) then
    ((dt.year : Int) + 1, 1,
     ((toOrdinal dt : Int) - isoweek1monday dt.year) % 7 + 1)
  else
    ((dt.year : Int),
     ((toOrdinal dt : Int) - isoweek1monday dt.year) / 7 + 1,
     ((toOrdinal dt : Int) - isoweek1monday dt.year) % 7 + 1)

/-- The ISO week number, as used by `is_same_week`. -/
def isoWeek (dt : DateTime) : Int := (isocalendar dt).2.1

/-- The ISO year. -/
def isoYear (dt : DateTime) : Int := (isocalendar dt).1

/-! ## `timestamps.py`: calendrical predicates

Each function mirrors the source:
```python
def is_same_hour(date1, date2):
    assert(date1 < date2)
    return date1.hour == date2.hour and date2 - date1 < timedelta(hours=1)
```
(similarly `day`/`week`; `is_same_week` compares ISO week numbers and
computes them before the assert). A `none` result models an exception
(`AssertionError`, or `TypeError` from comparing naive with aware). -/

/-- Model of `timestamps.is_same_hour`. -/
def is_same_hour (date1 date2 : DateTime) : Option Bool := do
  let lt ← dtLt date1 date2
  if lt then
    let diff ← dtSub date2 date1
    pure (date1.hour == date2.hour && decide (diff < 3600))
  else none

/-- Model of `timestamps.is_same_day`. -/
def is_same_day (date1 date2 : DateTime) : Option Bool := do
  let lt ← dtLt date1 date2
  if lt then
    let diff ← dtSub date2 date1
    pure (date1.day == date2.day && decide (diff < 86400))
  else none

/-- Model of `timestamps.is_same_week`. -/
def is_same_week (date1 date2 : DateTime) : Option Bool := do
  let week1 := isoWeek date1
  let week2 := isoWeek date2
  let lt ← dtLt date1 date2
  if lt then
    let diff ← dtSub date2 date1
    pure (week1 == week2 && decide (diff < 604800))
  else none

/-- Value of `timestamps.earliest_time = isoparse('0001-01-01T00+00:00')`. -/
def earliest_time : DateTime := ⟨1, 1, 1, 0, 0, 0, some 0⟩

/-- Table `daysInMonth` with the leap bit abstracted, for decidable table facts. -/
def dimAux (L : Bool) (m : Nat) : Nat :=
  match m with
  | 1 => 31
  | 2 => if L then 29 else 28
  | 3 => 31
  | 4 => 30
  | 5 => 31
  | 6 => 30
  | 7 => 31
  | 8 => 31
  | 9 => 30
  | 10 => 31
  | 11 => 30
  | 12 => 31
  | _ => 0

/-- Table `daysBeforeMonth` with the leap bit abstracted. -/
def dbmAux (L : Bool) (m : Nat) : Nat :=
  (match m with
   | 1 => 0
   | 2 => 31
   | 3 => 59
   | 4 => 90
   | 5 => 120
   | 6 => 151
   | 7 => 181
   | 8 => 212
   | 9 => 243
   | 10 => 273
   | 11 => 304
   | 12 => 334
   | _ => 0)
  + (if 2 < m ∧ L = true then 1 else 0)

/-! ## Spec-side calendrical definitions

Second definitions following the spec's words ("fall in the same calendar
unit"), for comparison with the code's field-equality tests. -/

/-- After the spec's words: `a` and `b` fall in the same calendar hour. -/
def specSameCalendarHour (a b : DateTime) : Prop :=
  a.year = b.year ∧ a.month = b.month ∧ a.day = b.day ∧ a.hour = b.hour

/-- After the spec's words: `a` and `b` fall in the same calendar day. -/
def specSameCalendarDay (a b : DateTime) : Prop :=
  a.year = b.year ∧ a.month = b.month ∧ a.day = b.day

/-- After the spec's words: `a` and `b` fall in the same ISO week
(same ISO year and same ISO week number). -/
def specSameISOWeek (a b : DateTime) : Prop :=
  (isocalendar a).1 = (isocalendar b).1 ∧ (isocalendar a).2.1 = (isocalendar b).2.1

/-! ## `timestamps.parse_timestamp` -/

/-- Value of an ASCII digit. -/
def digitVal (c : Char) : Option Nat :=
  if '0' ≤ c ∧ c ≤ '9' then some (c.toNat - 48) else none

/-- Parse exactly two digits. -/
def parse2 : Str → Option (Nat × Str)
  | c1 :: c2 :: rest => do
    let d1 ← digitVal c1
    let d2 ← digitVal c2
    pure (d1 * 10 + d2, rest)
  | _ => none

/-- Parse exactly four digits. -/
def parse4 : Str → Option (Nat × Str)
  | c1 :: c2 :: c3 :: c4 :: rest => do
    let d1 ← digitVal c1
    let d2 ← digitVal c2
    let d3 ← digitVal c3
    let d4 ← digitVal c4
    pure (d1 * 1000 + d2 * 100 + d3 * 10 + d4, rest)
  | _ => none

/-- Time part `HH[:MM[:SS]]`. -/
def parseTimePart (s : Str) : Option (Nat × Nat × Nat × Str) := do
  let (h, r1) ← parse2 s
  match r1 with
  | ':' :: r2 => do
    let (mi, r3) ← parse2 r2
    match r3 with
    | ':' :: r4 => do
      let (sec, r5) ← parse2 r4
      pure (h, mi, sec, r5)
    | _ => pure (h, mi, 0, r3)
  | _ => pure (h, 0, 0, r1)

/-- Offset magnitude `HH[:MM]` in minutes (bounded as `datetime.timezone`
requires). -/
def parseOffsetMag (s : Str) : Option (Nat × Str) := do
  let (oh, r1) ← parse2 s
  if oh < 24 then
    match r1 with
    | ':' :: r2 => do
      let (om, r3) ← parse2 r2
      if om < 60 then pure (oh * 60 + om, r3) else none
    | _ => pure (oh * 60, r1)
  else none

/-- Python `datetime.datetime` construction: validate the field ranges. -/
def mkDateTime (y mo d h mi s : Nat) (off : Option Int) : Option DateTime :=
  let dt : DateTime := ⟨y, mo, d, h, mi, s, off⟩
  if Valid dt then some dt else none

/-- Modelled from the spec: `parse_timestamp` delegates to
`dateutil.parser.isoparse`, an external library ("strict ISO-8601 parse; on
any parse/overflow failure, fails with `TimestampParse`"). This model
accepts the common ISO-8601 subset
`YYYY[-MM[-DD[THH[:MM[:SS]][Z|±HH[:MM]]]]]`; `none` models
`TimestampParseError`. -/
def parse_timestamp (s : Str) : Option DateTime := do
  let (y, r1) ← parse4 s
  match r1 with
  | [] => mkDateTime y 1 1 0 0 0 none
  | '-' :: r2 => do
    let (mo, r3) ← parse2 r2
    match r3 with
    | [] => mkDateTime y mo 1 0 0 0 none
    | '-' :: r4 => do
      let (d, r5) ← parse2 r4
      match r5 with
      | [] => mkDateTime y mo d 0 0 0 none
      | 'T' :: r6 => do
        let (h, mi, sec, r7) ← parseTimePart r6
        match r7 with
        | [] => mkDateTime y mo d h mi sec none
        | ['Z'] => mkDateTime y mo d h mi sec (some 0)
        | '+' :: r8 => do
          let (off, r9) ← parseOffsetMag r8
          match r9 with
          | [] => mkDateTime y mo d h mi sec (some (off : Int))
          | _ => none
        | '-' :: r8 => do
          let (off, r9) ← parseOffsetMag r8
          match r9 with
          | [] => mkDateTime y mo d h mi sec (some (-(off : Int)))
          | _ => none
        | _ => none
      | _ => none
    | _ => none
  | _ => none

/-- Model of `timestamps.is_timestamp`: the parse-success predicate. -/
def is_timestamp (s : Str) : Bool := (parse_timestamp s).isSome

/-! ## `worker.py`: the `Backup` record and `Worker.get_backups` -/

/-- Model of `worker.Backup`: container for the metadata of one finished backup. -/
structure Backup where
  name : Str
  datetime : DateTime
  is_last : Bool
  is_daily : Bool
  is_weekly : Bool
  is_retain_all : Bool
  is_retain_daily : Bool
  decay : Bool
  prune : Bool
deriving DecidableEq, Repr

/-- Model of `Backup._retain`: the retention cascade. -/
def retain (is_last is_retain_all is_retain_daily is_daily is_weekly : Bool) : Bool :=
  if is_last then true
  else if is_retain_all then true
  else if is_retain_daily then is_daily
  else is_weekly

/-- Model of `Backup.__init__`: parse the name, compute
`decay = decay_before > self.datetime`,
`is_retain_all = retain_all_after <= self.datetime`,
`is_retain_daily = retain_daily_after <= self.datetime`, the daily/weekly
flags against the previous record (both `true` when there is none), and
`prune = not self._retain()`. `none` models a raised exception
(`TimestampParseError`, `AssertionError`, `TypeError`). -/
def mkBackup (name : Str) (retain_all_after retain_daily_after decay_before : DateTime)
    (previous : Option Backup) (is_last : Bool) : Option Backup := do
  let dt ← parse_timestamp name
  let decay ← dtLt dt decay_before
  let is_retain_all ← dtLe retain_all_after dt
  let is_retain_daily ← dtLe retain_daily_after dt
  let (is_daily, is_weekly) ←
    match previous with
    | none => pure (true, true)
    | some prev => do
      let sd ← is_same_day prev.datetime dt
      let sw ← is_same_week prev.datetime dt
      pure (!sd, !sw)
  pure { name := name, datetime := dt, is_last := is_last, is_daily := is_daily,
         is_weekly := is_weekly, is_retain_all := is_retain_all,
         is_retain_daily := is_retain_daily, decay := decay,
         prune := !(retain is_last is_retain_all is_retain_daily is_daily is_weekly) }

/-- One insertion step of a stable ascending sort by Python string `<`. -/
def insertSorted (x : Str) : List Str → List Str
  | [] => [x]
  | y :: ys => if strLtB y x then y :: insertSorted x ys else x :: y :: ys

/-- Python `dirs.sort()`: ascending by Python string `<` (a total order, so any
correct sort yields the same list). -/
def sortStrs (l : List Str) : List Str := l.foldr insertSorted []

/-- The enumeration loop of `Worker.get_backups`: `previous` is the backup
appended in the previous iteration, `is_last` is `_index == len(dirs)`. -/
def buildBackups (retain_all_after retain_daily_after decay_before : DateTime)
    (total : Nat) : List Str → Nat → Option Backup → Option (List Backup)
  | [], _, _ => some []
  | d :: rest, idx, previous => do
    let b ← mkBackup d retain_all_after retain_daily_after decay_before previous
      (idx == total)
    let bs ← buildBackups retain_all_after retain_daily_after decay_before total
      rest (idx + 1) (some b)
    pure (b :: bs)

/-- Model of `Worker.get_backups` over the one-level directory listing `entries`:
keep entries whose name is a valid timestamp, sort ascending, and build the
records in order. `none` models an exception escaping the loop. -/
def get_backups (entries : List Str)
    (retain_all_after retain_daily_after decay_before : DateTime) :
    Option (List Backup) :=
  let dirs := sortStrs (entries.filter is_timestamp)
  buildBackups retain_all_after retain_daily_after decay_before dirs.length dirs 0 none

/-! ## `volume.py`: the `Lock` context manager, and
`worker.Worker.make_backup`'s lock discipline

The lockfile state is a `Bool` (present/absent). External effects (rsync,
btrfs, reachability, the syncdir assertion) are modelled by oracle booleans
saying whether the corresponding call succeeds. -/

inductive WorkerErr where
  | sourceNotReachable
  | backupDirError
  | locked (lockfile : Str)
  | fileNotFound
  | syncFailed
  | snapshotFailed
  | decayError
  | pruneError
deriving DecidableEq, Repr

/-- Model of `Lock.__enter__`: raise `LockedError(lockfile)` when the lockfile
exists, else create it (`open(lockfile, 'w').close()`). Returns the new
lockfile state. -/
def lockEnter (lockfile : Str) (lockfileExists : Bool) : Except WorkerErr Bool :=
  if lockfileExists then .error (.locked lockfile) else .ok true

/-- Model of `Lock.__exit__(exc_type, exc_value, exc_traceback)`: unconditionally
`os.remove(self._lockfile)` — the exception information is ignored.
`os.remove` raises `FileNotFoundError` when the file is absent. Returns the
new lockfile state. -/
def lockExit (excInfo : Option WorkerErr) (lockfileExists : Bool) :
    Except WorkerErr Bool :=
  if lockfileExists then .ok false else .error .fileNotFound

/-- Oracle outcomes for the external effects of one `make_backup` call. -/
structure BackupEnv where
  reachable : Bool
  syncdirOk : Bool
  rsyncOk : Bool
  snapshotOk : Bool
  decayOk : Bool
  pruneOk : Bool
  dry_run : Bool
  autodecay : Bool
  autoprune : Bool
deriving DecidableEq, Repr

/-- Result of a `make_backup` call: outcome, final lockfile state, and
whether rsync was invoked. -/
structure BackupRun where
  result : Except WorkerErr Unit
  lockfileExists : Bool
  rsyncInvoked : Bool
deriving Repr

/-- Model of `Worker.make_backup`: `is_reachable` → `_assert_syncdir` → `with
self.volume.lock():` (enter) → rsync → snapshot unless dry-run → lock exit
(also on the error paths, per Python `with` semantics) → autodecay →
autoprune. -/
def make_backup (env : BackupEnv) (lockfile : Str) (lockfileExists : Bool) :
    BackupRun :=
  if !env.reachable then ⟨.error .sourceNotReachable, lockfileExists, false⟩
  else if !env.syncdirOk then ⟨.error .backupDirError, lockfileExists, false⟩
  else
    match lockEnter lockfile lockfileExists with
    | .error e => ⟨.error e, lockfileExists, false⟩
    | .ok st1 =>
      if !env.rsyncOk then
        match lockExit (some .syncFailed) st1 with
        | .error e => ⟨.error e, st1, true⟩
        | .ok st2 => ⟨.error .syncFailed, st2, true⟩
      else if !env.dry_run && !env.snapshotOk then
        match lockExit (some .snapshotFailed) st1 with
        | .error e => ⟨.error e, st1, true⟩
        | .ok st2 => ⟨.error .snapshotFailed, st2, true⟩
      else
        match lockExit none st1 with
        | .error e => ⟨.error e, st1, true⟩
        | .ok st2 =>
          if env.autodecay && !env.decayOk then ⟨.error .decayError, st2, true⟩
          else if env.autoprune && !env.pruneOk then ⟨.error .pruneError, st2, true⟩
          else ⟨.ok (), st2, true⟩

/-- Errors that can only be raised after the lock was acquired. -/
def isPostAcquisition : WorkerErr → Bool
  | .syncFailed => true
  | .snapshotFailed => true
  | .decayError => true
  | .pruneError => true
  | _ => false

/-! ## `subprocess.py`: the `rsync` argument vector -/

/-- Model of `subprocess.rsync`'s argument vector, built exactly as the source does
(`progress` only toggles `show_output`, it does not contribute argv
entries). -/
def rsync_args (source target : String) (exclude : List String)
    (checksum progress dry_run : Bool) : List String :=
  let args := ["rsync", "--human-readable", "--itemize-changes", "--stats"]
  let args := args ++ ["-azv", "--sparse", "--delete", "--delete-excluded"]
  let args := args ++ exclude.map (fun p => "--exclude=" ++ p)
  let args := args ++ [source ++ "/", target]
  let args := if checksum then args ++ ["--checksum"] else args
  let args := if dry_run then args ++ ["--dry-run"] else args
  args

/-- After the claim's words: base flags (with separate `-a -z -v`), then
`--checksum` iff requested, then `--dry-run` iff requested, then the
excludes, and finally `SRC/ DST` as the last two elements. -/
def specRsyncArgv (source target : String) (exclude : List String)
    (checksum dry_run : Bool) : List String :=
  ["rsync", "--human-readable", "--itemize-changes", "--stats",
   "-a", "-z", "-v", "--sparse", "--delete", "--delete-excluded"]
  ++ (if checksum then ["--checksum"] else [])
  ++ (if dry_run then ["--dry-run"] else [])
  ++ exclude.map (fun p => "--exclude=" ++ p)
  ++ [source ++ "/", target]

/-! ## Concrete inputs used by the claim witnesses and counterexamples -/

/-- Date `1970-01-05` is a Monday; local midnight, naive. -/
def mondayMidnight : DateTime := ⟨1970, 1, 5, 0, 0, 0, none⟩

/-- 23h59m59s after `mondayMidnight`. -/
def mondayAlmostEnd : DateTime := ⟨1970, 1, 5, 23, 59, 59, none⟩

/-- 24h after `mondayMidnight`. -/
def tuesdayMidnight : DateTime := ⟨1970, 1, 6, 0, 0, 0, none⟩

/-- 6d23h59m59s after `mondayMidnight` (last second of its ISO week). -/
def sundayAlmostEnd : DateTime := ⟨1970, 1, 11, 23, 59, 59, none⟩

/-- 7d after `mondayMidnight` (first second of the next ISO week). -/
def nextMonday : DateTime := ⟨1970, 1, 12, 0, 0, 0, none⟩

/-- One second past midnight: a non-aligned start instant. -/
def justPastMidnight : DateTime := ⟨1970, 1, 1, 0, 0, 1, none⟩

/-- 23h59m59s after `justPastMidnight` — already the next calendar day. -/
def nextMidnight : DateTime := ⟨1970, 1, 2, 0, 0, 0, none⟩

/-- 6d23h59m59s after `justPastMidnight` — already the next ISO week. -/
def nextWeekMidnight : DateTime := ⟨1970, 1, 8, 0, 0, 0, none⟩

/-- A far-future retention threshold (UTC-aware), as in the repository's
`test_worker_get_backups_prune_weekly`. -/
def thresholdY2000 : DateTime := ⟨2000, 1, 1, 0, 0, 0, some 0⟩

/-- A naive early retention threshold. -/
def naiveEarliest : DateTime := ⟨1, 1, 1, 0, 0, 0, none⟩

/-- A naive decay threshold of `1970-01-02`. -/
def naiveDecayThreshold : DateTime := ⟨1970, 1, 2, 0, 0, 0, none⟩

/-! ## Theorems -/

theorem pySplit_ne_nil (sep : Char) (s : Str) : pySplit sep s ≠ [] := by
  cases s with
  | nil => simp [pySplit]
  | cons c rest =>
    simp only [pySplit]
    split
    · simp
    · cases h : pySplit sep rest <;> simp

/-- Splitting a concatenation at a separator boundary splits each side. -/
theorem pySplit_append_sep (sep : Char) (a b : Str) :
    pySplit sep (a ++ sep :: b) = pySplit sep a ++ pySplit sep b := by
  induction a with
  | nil => simp [pySplit]
  | cons c rest ih =>
    by_cases hc : c = sep
    · simp [pySplit, hc, ih]
    · simp only [List.cons_append, pySplit, hc, if_false, List.append_eq, ih]
      cases h : pySplit sep rest with
      | nil => exact absurd h (pySplit_ne_nil sep rest)
      | cons x t => simp

/-- A string not containing the separator splits into itself alone. -/
theorem pySplit_no_sep (sep : Char) (s : Str) (h : sep ∉ s) :
    pySplit sep s = [s] := by
  induction s with
  | nil => simp [pySplit]
  | cons c rest ih =>
    simp only [List.mem_cons, not_or] at h
    have hc : ¬(c = sep) := fun hcc => h.1 hcc.symm
    simp only [pySplit, hc, if_false, ih h.2]

/-- No piece produced by `pySplit` contains the separator. -/
theorem pySplit_pieces_no_sep (sep : Char) (s : Str) :
    ∀ p ∈ pySplit sep s, sep ∉ p := by
  induction s with
  | nil => simp [pySplit]
  | cons c rest ih =>
    by_cases hc : c = sep
    · simpa [pySplit, hc] using ih
    · simp only [pySplit, hc, if_false]
      cases h : pySplit sep rest with
      | nil => exact absurd h (pySplit_ne_nil sep rest)
      | cons x t =>
        intro p hp
        have hx := ih
        rw [h] at hx
        rcases List.mem_cons.mp hp with hph | hpt
        · subst hph
          intro hmem
          rcases List.mem_cons.mp hmem with h1 | h2
          · exact hc h1.symm
          · exact hx x (List.mem_cons_self x t) h2
        · exact hx p (List.mem_cons_of_mem x hpt)

/-- Splitting an interleaving of `'/'`-free nonempty pieces recovers them. -/
theorem pySplit_strIntercalate (sep : Char) (l : List Str) (hl : l ≠ [])
    (h : ∀ p ∈ l, sep ∉ p) : pySplit sep (strIntercalate sep l) = l := by
  induction l with
  | nil => exact absurd rfl hl
  | cons s rest ih =>
    cases rest with
    | nil =>
      simp only [strIntercalate]
      exact pySplit_no_sep sep s (h s (List.mem_cons_self s []))
    | cons t ts =>
      have hrec : pySplit sep (strIntercalate sep (t :: ts)) = t :: ts :=
        ih (by simp) (fun p hp => h p (List.mem_cons_of_mem s hp))
      calc pySplit sep (strIntercalate sep (s :: t :: ts))
          = pySplit sep (s ++ sep :: strIntercalate sep (t :: ts)) := rfl
        _ = pySplit sep s ++ pySplit sep (strIntercalate sep (t :: ts)) :=
            pySplit_append_sep sep s _
        _ = [s] ++ (t :: ts) := by
            rw [pySplit_no_sep sep s (h s (List.mem_cons_self s _)), hrec]
        _ = s :: t :: ts := rfl

theorem listStarts_refl (l : List Str) : listStarts l l = true := by
  induction l with
  | nil => rfl
  | cons a as ih => simp [listStarts, ih]

theorem listStarts_iff_exists (s b : List Str) :
    listStarts s b = true ↔ ∃ t, b = s ++ t := by
  induction s generalizing b with
  | nil => simp [listStarts]
  | cons a as ih =>
    cases b with
    | nil => simp [listStarts]
    | cons x xs =>
      simp only [listStarts, Bool.and_eq_true, decide_eq_true_eq, ih]
      constructor
      · rintro ⟨rfl, t, rfl⟩; exact ⟨t, rfl⟩
      · rintro ⟨t, ht⟩
        injection ht with h1 h2
        exact ⟨h1.symm, t, h2⟩

theorem listStarts_mem {s b : List Str} (h : listStarts s b = true) :
    ∀ x ∈ s, x ∈ b := by
  obtain ⟨t, rfl⟩ := (listStarts_iff_exists s b).mp h
  intro x hx
  exact List.mem_append_left t hx

theorem startsSlash_iff (s : Str) : startsSlash s = true ↔ ∃ t, s = '/' :: t := by
  cases s with
  | nil => simp [startsSlash]
  | cons c t =>
    constructor
    · intro h
      refine ⟨t, ?_⟩
      unfold startsSlash at h
      split at h
      · rename_i heq
        injection heq with h1 h2
        rw [h1]
      · exact absurd h (by simp)
    · rintro ⟨t', ht⟩
      injection ht with h1 h2
      subst h1; rfl

theorem pyJoin_abs {a : Str} (b : Str) (h : startsSlash a = true) :
    startsSlash (pyJoin a b) = true := by
  obtain ⟨t, rfl⟩ := (startsSlash_iff a).mp h
  unfold pyJoin
  split
  · assumption
  · split <;> rfl

theorem initialSlashes_pos {s : Str} (h : startsSlash s = true) :
    1 ≤ initialSlashes s := by
  unfold initialSlashes
  rw [if_pos h]
  split <;> omega

theorem pyNormpath_abs {s : Str} (h : startsSlash s = true) :
    startsSlash (pyNormpath s) = true := by
  obtain ⟨t, rfl⟩ := (startsSlash_iff s).mp h
  unfold pyNormpath
  rw [if_neg (by simp)]
  have hpos : 1 ≤ initialSlashes ('/' :: t) := initialSlashes_pos (by rfl)
  obtain ⟨k, hk⟩ : ∃ k, initialSlashes ('/' :: t) = k + 1 :=
    ⟨initialSlashes ('/' :: t) - 1, by omega⟩
  simp only [hk, List.replicate_succ]
  rw [if_neg (by simp)]
  rfl

theorem cpScan_starts_left (a b : List Str) : listStarts (cpScan a b) a = true := by
  induction a generalizing b with
  | nil => rfl
  | cons x xs ih =>
    cases b with
    | nil => rfl
    | cons y ys =>
      unfold cpScan
      split
      · rename_i hxy
        simp [listStarts, ih ys]
      · rfl

theorem cpScan_starts_right (a b : List Str) : listStarts (cpScan a b) b = true := by
  induction a generalizing b with
  | nil => cases b <;> rfl
  | cons x xs ih =>
    cases b with
    | nil => rfl
    | cons y ys =>
      unfold cpScan
      split
      · rename_i hxy
        subst hxy
        simp [listStarts, ih ys]
      · rfl

theorem comps_sane (s : Str) :
    ∀ c ∈ comps s, c ≠ [] ∧ c ≠ ['.'] ∧ '/' ∉ c := by
  intro c hc
  unfold comps at hc
  rw [List.mem_filter] at hc
  obtain ⟨hmem, hfil⟩ := hc
  refine ⟨?_, ?_, pySplit_pieces_no_sep '/' s c hmem⟩
  · intro hnil
    subst hnil
    simp at hfil
  · intro hdot
    subst hdot
    simp at hfil

/-- Re-splitting a rebuilt absolute path recovers its components. -/
theorem comps_slash_intercalate (l : List Str)
    (h : ∀ c ∈ l, c ≠ [] ∧ c ≠ ['.'] ∧ '/' ∉ c) :
    comps ('/' :: strIntercalate '/' l) = l := by
  cases l with
  | nil => rfl
  | cons x xs =>
    have hsplit : pySplit '/' ('/' :: strIntercalate '/' (x :: xs)) =
        [] :: pySplit '/' (strIntercalate '/' (x :: xs)) := rfl
    have hrt : pySplit '/' (strIntercalate '/' (x :: xs)) = x :: xs :=
      pySplit_strIntercalate '/' (x :: xs) (by simp) (fun p hp => (h p hp).2.2)
    unfold comps
    rw [hsplit, hrt]
    rw [List.filter_cons, List.filter_eq_self.mpr]
    · simp
    · intro a ha
      have := h a ha
      simp only [Bool.not_eq_true', Bool.or_eq_false_iff, beq_eq_false_iff_ne]
      exact ⟨this.1, this.2.1⟩

/-- Confinement of `_path_join`: over an absolute base path, every successful
result is an absolute path whose components extend the base's components,
and every failure is the `RuntimeError` branch (never the commonpath
`ValueError`). -/
theorem path_join_confined (basePath sub : Str) (hb : startsSlash basePath = true) :
    (∀ r, path_join basePath sub = .ok r →
      startsSlash r = true ∧ listStarts (comps basePath) (comps r) = true) ∧
    (∀ e, path_join basePath sub = .error e → e = .runtimeError) := by
  have hj0 : startsSlash (pyNormpath (pyJoin basePath sub)) = true :=
    pyNormpath_abs (pyJoin_abs sub hb)
  obtain ⟨joined, hJ, hj⟩ :
      ∃ j, pyNormpath (pyJoin basePath sub) = j ∧ startsSlash j = true :=
    ⟨_, rfl, hj0⟩
  obtain ⟨common, hcommon⟩ :
      ∃ c, c = cpScan
        (if listStrLeB (comps basePath) (comps joined) then comps basePath else comps joined)
        (if listStrLeB (comps basePath) (comps joined) then comps joined else comps basePath) :=
    ⟨_, rfl⟩
  have hcp : pyCommonpath2 basePath joined = some ('/' :: strIntercalate '/' common) := by
    unfold pyCommonpath2
    rw [hb, hj, hcommon]
    simp
  have hpfx_base : listStarts common (comps basePath) = true := by
    rw [hcommon]
    split
    · exact cpScan_starts_left _ _
    · exact cpScan_starts_right _ _
  have hpfx_joined : listStarts common (comps joined) = true := by
    rw [hcommon]
    split
    · exact cpScan_starts_right _ _
    · exact cpScan_starts_left _ _
  have hpj : path_join basePath sub =
      if ('/' :: strIntercalate '/' common) = basePath then Except.ok joined
      else Except.error PathErr.runtimeError := by
    unfold path_join
    rw [hJ, hcp]
  constructor
  · intro r hr
    rw [hpj] at hr
    by_cases hceq : ('/' :: strIntercalate '/' common) = basePath
    · rw [if_pos hceq] at hr
      injection hr with hr'
      subst hr'
      refine ⟨hj, ?_⟩
      have hbase_eq : comps basePath = common := by
        rw [← hceq]
        exact comps_slash_intercalate common (fun c hc =>
          comps_sane basePath c (listStarts_mem hpfx_base c hc))
      rw [hbase_eq]
      exact hpfx_joined
    · rw [if_neg hceq] at hr
      exact absurd hr (by simp)
  · intro e he
    rw [hpj] at he
    by_cases hceq : ('/' :: strIntercalate '/' common) = basePath
    · rw [if_pos hceq] at he
      exact absurd he (by simp)
    · rw [if_neg hceq] at he
      injection he with he'
      exact he'.symm

/-! ## Calendar arithmetic lemmas -/

theorem isLeapYear_iff (y : Nat) :
    isLeapYear y = true ↔ (y % 4 = 0 ∧ (y % 100 ≠ 0 ∨ y % 400 = 0)) := by
  unfold isLeapYear
  simp only [Bool.and_eq_true, beq_iff_eq, Bool.or_eq_true, bne_iff_ne, ne_eq]

theorem daysInMonth_eq_aux (y m : Nat) : daysInMonth y m = dimAux (isLeapYear y) m := by
  unfold daysInMonth dimAux
  rfl

theorem daysBeforeMonth_eq_aux (y m : Nat) :
    daysBeforeMonth y m = dbmAux (isLeapYear y) m := rfl

theorem daysInYear_eq_aux (y : Nat) :
    daysInYear y = if isLeapYear y then 366 else 365 := rfl

/-- All the month-table facts the calendar proofs need, by finite check. -/
theorem month_table (L : Bool) : ∀ m1 m2 : Fin 13,
    (1 ≤ m1.val → m1.val < m2.val →
      dbmAux L m1.val + dimAux L m1.val ≤ dbmAux L m2.val ∧
      dbmAux L m1.val + 28 ≤ dbmAux L m2.val) ∧
    (1 ≤ m1.val →
      dbmAux L m1.val + dimAux L m1.val ≤ (if L then 366 else 365) ∧
      1 ≤ dimAux L m1.val ∧ dbmAux L m1.val ≤ 335 ∧ dimAux L m1.val ≤ 31) := by
  cases L <;> decide

theorem daysInMonth_pos (y m : Nat) (h1 : 1 ≤ m) (h2 : m ≤ 12) :
    1 ≤ daysInMonth y m := by
  rw [daysInMonth_eq_aux]
  exact ((month_table (isLeapYear y) ⟨m, by omega⟩ 0).2 h1).2.1

theorem daysInMonth_le (y m : Nat) (h1 : 1 ≤ m) (h2 : m ≤ 12) :
    daysInMonth y m ≤ 31 := by
  rw [daysInMonth_eq_aux]
  exact ((month_table (isLeapYear y) ⟨m, by omega⟩ 0).2 h1).2.2.2

theorem daysBeforeMonth_le335 (y m : Nat) (h1 : 1 ≤ m) (h2 : m ≤ 12) :
    daysBeforeMonth y m ≤ 335 := by
  rw [daysBeforeMonth_eq_aux]
  exact ((month_table (isLeapYear y) ⟨m, by omega⟩ 0).2 h1).2.2.1

theorem daysBeforeMonth_gap (y m1 m2 : Nat) (h1 : 1 ≤ m1) (h2 : m1 < m2)
    (h3 : m2 ≤ 12) :
    daysBeforeMonth y m1 + daysInMonth y m1 ≤ daysBeforeMonth y m2 ∧
    daysBeforeMonth y m1 + 28 ≤ daysBeforeMonth y m2 := by
  rw [daysBeforeMonth_eq_aux, daysBeforeMonth_eq_aux, daysInMonth_eq_aux]
  exact (month_table (isLeapYear y) ⟨m1, by omega⟩ ⟨m2, by omega⟩).1 h1 h2

theorem daysBeforeMonth_le (y m : Nat) (h1 : 1 ≤ m) (h2 : m ≤ 12) :
    daysBeforeMonth y m + daysInMonth y m ≤ daysInYear y := by
  rw [daysBeforeMonth_eq_aux, daysInMonth_eq_aux, daysInYear_eq_aux]
  exact ((month_table (isLeapYear y) ⟨m, by omega⟩ 0).2 h1).1

theorem daysInYear_bounds (y : Nat) : 365 ≤ daysInYear y ∧ daysInYear y ≤ 366 := by
  unfold daysInYear
  split <;> omega

set_option maxHeartbeats 1000000 in
theorem daysBeforeYear_succ (y : Nat) (h : 1 ≤ y) :
    daysBeforeYear (y + 1) = daysBeforeYear y + daysInYear y := by
  unfold daysBeforeYear daysInYear
  rw [show y + 1 - 1 = (y - 1) + 1 by omega]
  by_cases hl : isLeapYear y = true
  · rw [if_pos hl]
    rw [isLeapYear_iff] at hl
    omega
  · rw [if_neg hl]
    rw [isLeapYear_iff] at hl
    push_neg at hl
    omega

theorem daysBeforeYear_mono {y1 y2 : Nat} (h : y1 ≤ y2) :
    daysBeforeYear y1 ≤ daysBeforeYear y2 := by
  unfold daysBeforeYear
  have h4 : (y1 - 1) / 4 ≤ (y2 - 1) / 4 := Nat.div_le_div_right (by omega)
  have h100 : (y1 - 1) / 100 ≤ (y2 - 1) / 100 := Nat.div_le_div_right (by omega)
  have h400 : (y1 - 1) / 400 ≤ (y2 - 1) / 400 := Nat.div_le_div_right (by omega)
  have hq1 : (y1 - 1) / 100 ≤ (y1 - 1) / 4 := Nat.div_le_div_left (by omega) (by omega)
  have hq2 : (y2 - 1) / 100 ≤ (y2 - 1) / 4 := Nat.div_le_div_left (by omega) (by omega)
  have hm : (y2 - 1) / 100 * 100 ≤ y2 - 1 := Nat.div_mul_le_self _ _
  have hm2 : (y2 - 1) / 100 ≤ (y1 - 1) / 100 + (y2 - y1) := by
    have : (y2 - 1) / 100 ≤ ((y1 - 1) + (y2 - y1) * 100) / 100 :=
      Nat.div_le_div_right (show y2 - 1 ≤ (y1 - 1) + (y2 - y1) * 100 by omega)
    calc (y2 - 1) / 100 ≤ ((y1 - 1) + (y2 - y1) * 100) / 100 := this
      _ = (y1 - 1) / 100 + (y2 - y1) := by rw [Nat.add_mul_div_right _ _ (by omega : 0 < 100)]
  omega

/-- For a valid date, the ordinal lies between the first and last day of
its year. -/
theorem toOrdinal_bounds (dt : DateTime) (h : Valid dt) :
    daysBeforeYear dt.year + 1 ≤ toOrdinal dt ∧
    toOrdinal dt ≤ daysBeforeYear dt.year + daysInYear dt.year := by
  obtain ⟨hy, hm1, hm2, hd1, hd2, _⟩ := h
  unfold toOrdinal ymd2ord
  have hle := daysBeforeMonth_le dt.year dt.month hm1 hm2
  omega

theorem toOrdinal_lt_of_year_lt {a b : DateTime} (ha : Valid a) (hb : Valid b)
    (h : a.year < b.year) : toOrdinal a < toOrdinal b := by
  have h1 := toOrdinal_bounds a ha
  have h2 := toOrdinal_bounds b hb
  have h3 : daysBeforeYear (a.year + 1) = daysBeforeYear a.year + daysInYear a.year :=
    daysBeforeYear_succ a.year ha.1
  have h4 : daysBeforeYear (a.year + 1) ≤ daysBeforeYear b.year :=
    daysBeforeYear_mono (by omega)
  omega

theorem toOrdinal_lt_of_month_lt {a b : DateTime} (ha : Valid a) (hb : Valid b)
    (hy : a.year = b.year) (h : a.month < b.month) : toOrdinal a < toOrdinal b := by
  obtain ⟨_, hm1, _, hd1, hd2, _⟩ := ha
  obtain ⟨_, _, hm2', hd1', _⟩ := hb
  have hgap := (daysBeforeMonth_gap b.year a.month b.month (by omega) h hm2').1
  unfold toOrdinal ymd2ord
  rw [hy] at hd2 ⊢
  omega

theorem toOrdinal_lt_of_day_lt {a b : DateTime} (hy : a.year = b.year)
    (hm : a.month = b.month) (h : a.day < b.day) : toOrdinal a < toOrdinal b := by
  unfold toOrdinal ymd2ord
  rw [hy, hm]
  omega

/-- The ordinal determines the calendar date (for valid dates). -/
theorem toOrdinal_inj {a b : DateTime} (ha : Valid a) (hb : Valid b)
    (h : toOrdinal a = toOrdinal b) :
    a.year = b.year ∧ a.month = b.month ∧ a.day = b.day := by
  rcases Nat.lt_trichotomy a.year b.year with hy | hy | hy
  · exact absurd h (Nat.ne_of_lt (toOrdinal_lt_of_year_lt ha hb hy))
  · rcases Nat.lt_trichotomy a.month b.month with hm | hm | hm
    · exact absurd h (Nat.ne_of_lt (toOrdinal_lt_of_month_lt ha hb hy hm))
    · rcases Nat.lt_trichotomy a.day b.day with hd | hd | hd
      · exact absurd h (Nat.ne_of_lt (toOrdinal_lt_of_day_lt hy hm hd))
      · exact ⟨hy, hm, hd⟩
      · exact absurd h.symm (Nat.ne_of_lt (toOrdinal_lt_of_day_lt hy.symm hm.symm hd))
    · exact absurd h.symm (Nat.ne_of_lt (toOrdinal_lt_of_month_lt hb ha hy.symm hm))
  · exact absurd h.symm (Nat.ne_of_lt (toOrdinal_lt_of_year_lt hb ha hy))

theorem secondsOfDay_lt (dt : DateTime) (h : Valid dt) : secondsOfDay dt < 86400 := by
  obtain ⟨_, _, _, _, _, hh, hm, hs⟩ := h
  unfold secondsOfDay
  omega

theorem ymd2ord_jan1 (y : Nat) : ymd2ord y 1 1 = daysBeforeYear y + 1 := by
  unfold ymd2ord daysBeforeMonth
  norm_num

/-- Fact: `isoweek1monday y` is within 3 days of Jan 1 and is `≡ 1 (mod 7)`. -/
theorem isoweek1monday_facts (y : Nat) :
    (daysBeforeYear y : Int) + 1 - 3 ≤ isoweek1monday y ∧
    isoweek1monday y ≤ (daysBeforeYear y : Int) + 1 + 3 ∧
    isoweek1monday y % 7 = 1 := by
  unfold isoweek1monday
  rw [ymd2ord_jan1]
  split <;> push_cast <;> omega

/-- Week-1 Mondays of consecutive years are 364 or 371 days apart. -/
theorem isoweek1monday_succ (y : Nat) (h : 1 ≤ y) :
    isoweek1monday y + 364 ≤ isoweek1monday (y + 1) ∧
    isoweek1monday (y + 1) ≤ isoweek1monday y + 371 := by
  have h1 := isoweek1monday_facts y
  have h2 := isoweek1monday_facts (y + 1)
  have h3 : daysBeforeYear (y + 1) = daysBeforeYear y + daysInYear y :=
    daysBeforeYear_succ y h
  have h4 := daysInYear_bounds y
  omega

theorem isoweek1monday_gap {y1 y2 : Nat} (h1 : 1 ≤ y1) (h : y1 < y2) :
    isoweek1monday y1 + 364 ≤ isoweek1monday y2 := by
  induction y2 with
  | zero => omega
  | succ n ih =>
    rcases Nat.lt_or_ge y1 n with hlt | hge
    · have hstep := (isoweek1monday_succ n (by omega)).1
      have := ih hlt
      omega
    · have hyn : y1 = n := by omega
      subst hyn
      exact (isoweek1monday_succ y1 h1).1

theorem isoweek1monday_mono {y1 y2 : Nat} (h1 : 1 ≤ y1) (h : y1 ≤ y2) :
    isoweek1monday y1 ≤ isoweek1monday y2 := by
  rcases Nat.eq_or_lt_of_le h with heq | hlt
  · rw [heq]
  · have := isoweek1monday_gap h1 hlt
    omega

/-- The isocalendar bracketing invariant: the returned ISO year `yn`
satisfies `week1monday(yn) ≤ ordinal < week1monday(yn+1)`, and the returned
week number is `(ordinal - week1monday(yn)) / 7 + 1`. -/
theorem isocalendar_bracket (dt : DateTime) (h : Valid dt) :
    ∃ yn : Nat, 1 ≤ yn ∧ (isocalendar dt).1 = (yn : Int) ∧
      isoweek1monday yn ≤ (toOrdinal dt : Int) ∧
      (toOrdinal dt : Int) < isoweek1monday (yn + 1) ∧
      (isocalendar dt).2.1 = ((toOrdinal dt : Int) - isoweek1monday yn) / 7 + 1 ∧
      (isocalendar dt).2.2 = ((toOrdinal dt : Int) - isoweek1monday yn) % 7 + 1 := by
  have hy : 1 ≤ dt.year := h.1
  have hord := toOrdinal_bounds dt h
  have hfy := isoweek1monday_facts dt.year
  have hfy1 := isoweek1monday_facts (dt.year + 1)
  have hdiy := daysInYear_bounds dt.year
  have hsucc : daysBeforeYear (dt.year + 1) = daysBeforeYear dt.year + daysInYear dt.year :=
    daysBeforeYear_succ dt.year hy
  unfold isocalendar
  split
  · -- week < 0: date belongs to the previous ISO year
    rename_i hneg
    have hw1 : isoweek1monday 1 = 1 := by decide
    have hy2 : 2 ≤ dt.year := by
      rcases Nat.eq_or_lt_of_le hy with heq | hlt
      · exfalso
        rw [← heq] at hneg
        rw [hw1] at hneg
        omega
      · omega
    have hsucc' : daysBeforeYear (dt.year - 1 + 1) =
        daysBeforeYear (dt.year - 1) + daysInYear (dt.year - 1) :=
      daysBeforeYear_succ (dt.year - 1) (by omega)
    have hfyp := isoweek1monday_facts (dt.year - 1)
    have hdiyp := daysInYear_bounds (dt.year - 1)
    refine ⟨dt.year - 1, by omega, by simp, ?_, ?_, by simp, by simp⟩
    · have he : dt.year - 1 + 1 = dt.year := by omega
      rw [he] at hsucc'
      omega
    · have he : dt.year - 1 + 1 = dt.year := by omega
      rw [he]
      omega
  · split
    · -- week ≥ 52 and the next year's week 1 has started
      rename_i hnneg hcond
      obtain ⟨hwk52, hle⟩ := hcond
      have hsucc2 := isoweek1monday_succ (dt.year + 1) (by omega)
      refine ⟨dt.year + 1, by omega, by push_cast; ring, hle, ?_, ?_, ?_⟩
      · omega
      · have h0 : 0 ≤ (toOrdinal dt : Int) - isoweek1monday (dt.year + 1) := by omega
        have h6 : (toOrdinal dt : Int) - isoweek1monday (dt.year + 1) < 7 := by omega
        show (1 : Int) = ((toOrdinal dt : Int) - isoweek1monday (dt.year + 1)) / 7 + 1
        omega
      · -- the weekday was computed against this year's week-1 Monday, but
        -- the two Mondays agree modulo 7
        show ((toOrdinal dt : Int) - isoweek1monday dt.year) % 7 + 1 =
          ((toOrdinal dt : Int) - isoweek1monday (dt.year + 1)) % 7 + 1
        omega
    · -- plain case: the date's own year is the ISO year
      rename_i hnneg hncond
      have hsucc2 := isoweek1monday_succ dt.year hy
      refine ⟨dt.year, hy, by simp, by omega, ?_, by simp, by simp⟩
      rcases Decidable.not_and_iff_or_not.mp hncond with hwlt | hogt
      · have hwlt' : ((toOrdinal dt : Int) - isoweek1monday dt.year) / 7 < 52 := by omega
        omega
      · omega

/-- Forward direction of the same-week analysis: equal ISO week numbers
within strictly less than one week of each other forces equal ISO years. -/
theorem isoYear_eq_of_week_eq {a b : DateTime} (ha : Valid a) (hb : Valid b)
    (hlt : naiveEpoch a < naiveEpoch b)
    (hdiff : naiveEpoch b - naiveEpoch a < 604800)
    (hwk : (isocalendar a).2.1 = (isocalendar b).2.1) :
    (isocalendar a).1 = (isocalendar b).1 := by
  obtain ⟨ya, hya1, hYa, hloa, hhia, hwa, _⟩ := isocalendar_bracket a ha
  obtain ⟨yb, hyb1, hYb, hlob, hhib, hwb, _⟩ := isocalendar_bracket b hb
  have hsa := secondsOfDay_lt a ha
  have hsb := secondsOfDay_lt b hb
  have hna : naiveEpoch a = (toOrdinal a : Int) * 86400 + (secondsOfDay a : Int) := rfl
  have hnb : naiveEpoch b = (toOrdinal b : Int) * 86400 + (secondsOfDay b : Int) := rfl
  have hordle : (toOrdinal a : Int) ≤ (toOrdinal b : Int) ∧
      (toOrdinal b : Int) ≤ (toOrdinal a : Int) + 7 := by omega
  rcases Nat.lt_trichotomy ya yb with hyy | hyy | hyy
  · -- ya < yb: only possible in theory for adjacent years with tiny weeks;
    -- the equal week numbers rule it out
    have hmono : isoweek1monday (ya + 1) ≤ isoweek1monday yb :=
      isoweek1monday_mono (by omega) (by omega)
    have hgap : yb = ya + 1 := by
      by_contra hne
      have : isoweek1monday (ya + 1) + 364 ≤ isoweek1monday yb :=
        isoweek1monday_gap (by omega) (by omega)
      omega
    subst hgap
    have hsucca : isoweek1monday ya + 364 ≤ isoweek1monday (ya + 1) :=
      isoweek1monday_gap hya1 (by omega)
    -- week of b is 1, week of a would have to be 1 as well, contradiction
    have hb0 : 0 ≤ (toOrdinal b : Int) - isoweek1monday (ya + 1) := by omega
    have hb6 : (toOrdinal b : Int) - isoweek1monday (ya + 1) ≤ 6 := by omega
    have hwb1 : (isocalendar b).2.1 = 1 := by
      rw [hwb]
      omega
    rw [hwb1] at hwk
    rw [hwa] at hwk
    have ha0 : 0 ≤ (toOrdinal a : Int) - isoweek1monday ya := by omega
    have ha6 : (toOrdinal a : Int) - isoweek1monday ya ≤ 6 := by omega
    omega
  · rw [hYa, hYb, hyy]
  · exfalso
    have hmono : isoweek1monday (yb + 1) ≤ isoweek1monday ya :=
      isoweek1monday_mono (by omega) (by omega)
    omega

/-- Two valid dates with the same day-of-month but different (year, month)
are at least 28 days apart. -/
theorem toOrdinal_gap_of_day_eq {a b : DateTime} (ha : Valid a) (hb : Valid b)
    (hd : a.day = b.day) (hne : ¬(a.year = b.year ∧ a.month = b.month)) :
    toOrdinal a + 28 ≤ toOrdinal b ∨ toOrdinal b + 28 ≤ toOrdinal a := by
  have key : ∀ x y : DateTime, Valid x → Valid y → x.day = y.day →
      (x.year = y.year ∧ x.month < y.month) ∨ x.year < y.year →
      toOrdinal x + 28 ≤ toOrdinal y := by
    intro x y hx hy hdxy hcase
    rcases hcase with ⟨hyeq, hmlt⟩ | hylt
    · have hgap := (daysBeforeMonth_gap y.year x.month y.month (by exact hx.2.1) hmlt hy.2.2.1).2
      unfold toOrdinal ymd2ord
      rw [hyeq]
      omega
    · have h3 : daysBeforeYear (x.year + 1) = daysBeforeYear x.year + daysInYear x.year :=
        daysBeforeYear_succ x.year hx.1
      have h4 : daysBeforeYear (x.year + 1) ≤ daysBeforeYear y.year :=
        daysBeforeYear_mono (by omega)
      have h5 : daysBeforeMonth x.year x.month ≤ 335 :=
        daysBeforeMonth_le335 x.year x.month hx.2.1 hx.2.2.1
      have h8 : 365 ≤ daysInYear x.year := (daysInYear_bounds x.year).1
      unfold toOrdinal ymd2ord
      have h10 : x.day = y.day := hdxy
      omega
  rcases Nat.lt_trichotomy a.year b.year with hy | hy | hy
  · exact Or.inl (key a b ha hb hd (Or.inr hy))
  · rcases Nat.lt_trichotomy a.month b.month with hm | hm | hm
    · exact Or.inl (key a b ha hb hd (Or.inl ⟨hy, hm⟩))
    · exact absurd ⟨hy, hm⟩ hne
    · exact Or.inr (key b a hb ha hd.symm (Or.inl ⟨hy.symm, hm⟩))
  · exact Or.inr (key b a hb ha hd.symm (Or.inr hy))

/-- Equal hour fields within less than an hour of each other means the same
calendar hour. -/
theorem sameCalendarHour_of_code {a b : DateTime} (ha : Valid a) (hb : Valid b)
    (hh : a.hour = b.hour) (h0 : naiveEpoch a < naiveEpoch b)
    (h1 : naiveEpoch b - naiveEpoch a < 3600) : specSameCalendarHour a b := by
  have hva := ha
  have hvb := hb
  obtain ⟨_, _, _, _, _, hh24a, hm60a, hs60a⟩ := hva
  obtain ⟨_, _, _, _, _, hh24b, hm60b, hs60b⟩ := hvb
  have e1 : naiveEpoch a = (toOrdinal a : Int) * 86400 +
      ((a.hour : Int) * 3600 + (a.minute : Int) * 60 + (a.second : Int)) := by
    unfold naiveEpoch secondsOfDay
    push_cast
    ring
  have e2 : naiveEpoch b = (toOrdinal b : Int) * 86400 +
      ((b.hour : Int) * 3600 + (b.minute : Int) * 60 + (b.second : Int)) := by
    unfold naiveEpoch secondsOfDay
    push_cast
    ring
  have hOrdEq : toOrdinal a = toOrdinal b := by omega
  obtain ⟨hy, hm, hd⟩ := toOrdinal_inj ha hb hOrdEq
  exact ⟨hy, hm, hd, hh⟩

/-- Equal day fields within less than a day of each other means the same
calendar day. -/
theorem sameCalendarDay_of_code {a b : DateTime} (ha : Valid a) (hb : Valid b)
    (hd : a.day = b.day) (h0 : naiveEpoch a < naiveEpoch b)
    (h1 : naiveEpoch b - naiveEpoch a < 86400) : specSameCalendarDay a b := by
  have hsa := secondsOfDay_lt a ha
  have hsb := secondsOfDay_lt b hb
  have e1 : naiveEpoch a = (toOrdinal a : Int) * 86400 + (secondsOfDay a : Int) := rfl
  have e2 : naiveEpoch b = (toOrdinal b : Int) * 86400 + (secondsOfDay b : Int) := rfl
  have hord : toOrdinal b = toOrdinal a ∨ toOrdinal b = toOrdinal a + 1 := by omega
  rcases hord with heq | hsucc
  · obtain ⟨hy, hm, hdd⟩ := toOrdinal_inj ha hb heq.symm
    exact ⟨hy, hm, hdd⟩
  · by_cases hym : a.year = b.year ∧ a.month = b.month
    · exact ⟨hym.1, hym.2, hd⟩
    · rcases toOrdinal_gap_of_day_eq ha hb hd hym with hg | hg <;> omega

/-! ### Evaluation of the `is_same_*` predicates under a passed assert -/

theorem is_same_hour_eval {a b : DateTime} {d : Int} (hlt : dtLt a b = some true)
    (hsub : dtSub b a = some d) :
    is_same_hour a b = some ((a.hour == b.hour) && decide (d < 3600)) := by
  unfold is_same_hour
  rw [hlt]
  simp only [Option.bind_eq_bind, Option.some_bind, if_true]
  rw [hsub]
  simp

theorem is_same_day_eval {a b : DateTime} {d : Int} (hlt : dtLt a b = some true)
    (hsub : dtSub b a = some d) :
    is_same_day a b = some ((a.day == b.day) && decide (d < 86400)) := by
  unfold is_same_day
  rw [hlt]
  simp only [Option.bind_eq_bind, Option.some_bind, if_true]
  rw [hsub]
  simp

theorem is_same_week_eval {a b : DateTime} {d : Int} (hlt : dtLt a b = some true)
    (hsub : dtSub b a = some d) :
    is_same_week a b = some ((isoWeek a == isoWeek b) && decide (d < 604800)) := by
  unfold is_same_week
  rw [hlt]
  simp only [Option.bind_eq_bind, Option.some_bind, if_true]
  rw [hsub]
  simp

theorem dtCompat_symm {a b : DateTime} (h : dtCompat a b = true) :
    dtCompat b a = true := by
  unfold dtCompat at h ⊢
  rw [beq_iff_eq] at h
  rw [beq_iff_eq, h]

theorem dtSub_of_compat {a b : DateTime} (h : dtCompat a b = true) :
    dtSub b a = some (dtKey b - dtKey a) := by
  unfold dtSub
  rw [if_pos (dtCompat_symm h)]

theorem dtLt_key {a b : DateTime} (h : dtLt a b = some true) :
    dtCompat a b = true ∧ dtKey a < dtKey b := by
  unfold dtLt at h
  split at h
  · rename_i hc
    simp only [Option.some_inj, decide_eq_true_eq] at h
    exact ⟨hc, h⟩
  · exact absurd h (by simp)

theorem dtLt_of_key {a b : DateTime} (hc : dtCompat a b = true)
    (h : dtKey a < dtKey b) : dtLt a b = some true := by
  unfold dtLt
  rw [if_pos hc]
  simp [h]

/-- With equal offsets the comparison key difference equals the local
(naive) epoch difference. -/
theorem dtKey_sub_of_offset_eq {a b : DateTime} (hoff : a.utcoffset = b.utcoffset) :
    dtKey b - dtKey a = naiveEpoch b - naiveEpoch a := by
  unfold dtKey
  rw [hoff]
  ring

theorem dtCompat_of_offset_eq {a b : DateTime} (hoff : a.utcoffset = b.utcoffset) :
    dtCompat a b = true := by
  unfold dtCompat
  rw [hoff]
  simp

/-! ### Aligned-boundary behaviour of `is_same_day` / `is_same_week` -/

/-- From a start-of-day instant, 23h59m59s later is still the same day
field, so `is_same_day` holds. -/
theorem same_day_aligned {a b : DateTime} (ha : Valid a) (hb : Valid b)
    (hoff : a.utcoffset = b.utcoffset)
    (hmid : a.hour = 0 ∧ a.minute = 0 ∧ a.second = 0)
    (hsub : dtSub b a = some 86399) : is_same_day a b = some true := by
  have hc := dtCompat_of_offset_eq hoff
  have hsub' := dtSub_of_compat hc
  have hd : dtKey b - dtKey a = 86399 := by
    rw [hsub'] at hsub
    injection hsub
  have hlt : dtLt a b = some true := dtLt_of_key hc (by omega)
  have hnd : naiveEpoch b - naiveEpoch a = 86399 := by
    rw [← dtKey_sub_of_offset_eq hoff]
    exact hd
  have hsa : secondsOfDay a = 0 := by
    unfold secondsOfDay
    omega
  have hsb := secondsOfDay_lt b hb
  have e1 : naiveEpoch a = (toOrdinal a : Int) * 86400 + (secondsOfDay a : Int) := rfl
  have e2 : naiveEpoch b = (toOrdinal b : Int) * 86400 + (secondsOfDay b : Int) := rfl
  have hord : toOrdinal a = toOrdinal b := by omega
  obtain ⟨_, _, hday⟩ := toOrdinal_inj ha hb hord
  rw [is_same_day_eval hlt hsub]
  simp [hday]

/-- From a Monday-midnight instant, 6d23h59m59s later is still in the same
ISO week, so `is_same_week` holds. -/
theorem same_week_aligned {a b : DateTime} (ha : Valid a) (hb : Valid b)
    (hoff : a.utcoffset = b.utcoffset)
    (hmid : a.hour = 0 ∧ a.minute = 0 ∧ a.second = 0)
    (hwd : (isocalendar a).2.2 = 1)
    (hsub : dtSub b a = some 604799) : is_same_week a b = some true := by
  have hc := dtCompat_of_offset_eq hoff
  have hsub' := dtSub_of_compat hc
  have hd : dtKey b - dtKey a = 604799 := by
    rw [hsub'] at hsub
    injection hsub
  have hlt : dtLt a b = some true := dtLt_of_key hc (by omega)
  have hnd : naiveEpoch b - naiveEpoch a = 604799 := by
    rw [← dtKey_sub_of_offset_eq hoff]
    exact hd
  have hsa : secondsOfDay a = 0 := by
    unfold secondsOfDay
    omega
  have hsb := secondsOfDay_lt b hb
  have e1 : naiveEpoch a = (toOrdinal a : Int) * 86400 + (secondsOfDay a : Int) := rfl
  have e2 : naiveEpoch b = (toOrdinal b : Int) * 86400 + (secondsOfDay b : Int) := rfl
  have hord : (toOrdinal b : Int) = (toOrdinal a : Int) + 6 := by omega
  obtain ⟨ya, hya1, hYa, hloa, hhia, hwka, hdya⟩ := isocalendar_bracket a ha
  obtain ⟨yb, hyb1, hYb, hlob, hhib, hwkb, _⟩ := isocalendar_bracket b hb
  have hfya := isoweek1monday_facts ya
  have hfya1 := isoweek1monday_facts (ya + 1)
  -- a is a Monday: its offset from its week-1 Monday is a multiple of 7
  have hmod : ((toOrdinal a : Int) - isoweek1monday ya) % 7 = 0 := by
    rw [hdya] at hwd
    omega
  -- so the next week-1 Monday is at least 7 days away, and b shares a's
  -- bracket
  have hbin : isoweek1monday ya ≤ (toOrdinal b : Int) ∧
      (toOrdinal b : Int) < isoweek1monday (ya + 1) := by
    constructor
    · omega
    · omega
  have hyy : yb = ya := by
    rcases Nat.lt_trichotomy ya yb with hy | hy | hy
    · exfalso
      have : isoweek1monday (ya + 1) ≤ isoweek1monday yb :=
        isoweek1monday_mono (by omega) (by omega)
      omega
    · omega
    · exfalso
      have : isoweek1monday (yb + 1) ≤ isoweek1monday ya :=
        isoweek1monday_mono (by omega) (by omega)
      omega
  subst hyy
  have hwkeq : (isocalendar a).2.1 = (isocalendar b).2.1 := by
    rw [hwka, hwkb]
    omega
  rw [is_same_week_eval hlt hsub]
  unfold isoWeek
  rw [hwkeq]
  simp

/-- The retention cascade written as the claim's disjunction. -/
theorem retain_cascade (l a d dy w : Bool) :
    (!(retain l a d dy w)) =
      !(l || a || (d && dy) || (!l && !a && !d && w)) := by
  cases l <;> cases a <;> cases d <;> cases dy <;> cases w <;> rfl

/-! ### Properties of `mkBackup` and the enumeration loop -/

/-- A non-exceptional `is_same_day` requires its assert `date1 < date2` to
have passed. -/
theorem is_same_day_some {a b : DateTime} {x : Bool}
    (h : is_same_day a b = some x) : dtLt a b = some true := by
  unfold is_same_day at h
  cases hlt : dtLt a b with
  | none => rw [hlt] at h; simp at h
  | some lt =>
    rw [hlt] at h
    cases lt with
    | false => simp at h
    | true => rfl

/-- Success characterization of `Backup.__init__`: every field equals what
the source computes, and a present predecessor must compare strictly below
the record's own timestamp (the `is_same_day` assert). -/
theorem mkBackup_spec {name : Str} {ra rd db : DateTime} {prev : Option Backup}
    {last : Bool} {b : Backup}
    (h : mkBackup name ra rd db prev last = some b) :
    b.name = name ∧ b.is_last = last ∧
    parse_timestamp name = some b.datetime ∧
    dtLt b.datetime db = some b.decay ∧
    dtLe ra b.datetime = some b.is_retain_all ∧
    dtLe rd b.datetime = some b.is_retain_daily ∧
    b.prune = !(retain b.is_last b.is_retain_all b.is_retain_daily b.is_daily b.is_weekly) ∧
    (∀ p, prev = some p → dtLt p.datetime b.datetime = some true) := by
  unfold mkBackup at h
  simp only [Option.bind_eq_bind] at h
  obtain ⟨dt, hdt, h⟩ := Option.bind_eq_some.mp h
  obtain ⟨dec, hdec, h⟩ := Option.bind_eq_some.mp h
  obtain ⟨ral, hral, h⟩ := Option.bind_eq_some.mp h
  obtain ⟨rdl, hrdl, h⟩ := Option.bind_eq_some.mp h
  cases prev with
  | none =>
    simp only [Option.pure_def, Option.some_bind] at h
    injection h with h'
    subst h'
    exact ⟨rfl, rfl, hdt, hdec, hral, hrdl, rfl, by simp⟩
  | some p =>
    obtain ⟨sd, hsd, h⟩ := Option.bind_eq_some.mp h
    obtain ⟨sw, hsw, h⟩ := Option.bind_eq_some.mp h
    simp only [Option.pure_def, Option.bind_eq_bind, Option.some_bind] at h
    injection h with h'
    subst h'
    refine ⟨rfl, rfl, hdt, hdec, hral, hrdl, rfl, ?_⟩
    intro q hq
    injection hq with hq'
    subst hq'
    exact is_same_day_some hsd

theorem dtLt_trans {a b c : DateTime} (h1 : dtLt a b = some true)
    (h2 : dtLt b c = some true) : dtLt a c = some true := by
  unfold dtLt at h1 h2 ⊢
  split at h1
  · split at h2
    · rename_i hab hbc
      unfold dtCompat at hab hbc ⊢
      rw [beq_iff_eq] at hab hbc
      rw [if_pos (by rw [beq_iff_eq, hab, hbc])]
      simp only [Option.some_inj, decide_eq_true_eq] at h1 h2 ⊢
      omega
    · exact absurd h2 (by simp)
  · exact absurd h1 (by simp)

/-- The enumeration loop only returns when every adjacent pair of records
passed the `is_same_day` assert, so the produced list is strictly
increasing in `datetime`. -/
theorem buildBackups_chain (ra rd db : DateTime) (total : Nat) :
    ∀ (dirs : List Str) (idx : Nat) (prev : Option Backup) (bs : List Backup),
      buildBackups ra rd db total dirs idx prev = some bs →
      (∀ p, prev = some p → ∀ x ∈ bs, dtLt p.datetime x.datetime = some true) ∧
      List.Pairwise (fun x y => dtLt x.datetime y.datetime = some true) bs := by
  intro dirs
  induction dirs with
  | nil =>
    intro idx prev bs h
    unfold buildBackups at h
    injection h with h'
    subst h'
    exact ⟨by simp, List.Pairwise.nil⟩
  | cons d rest ih =>
    intro idx prev bs h
    unfold buildBackups at h
    simp only [Option.bind_eq_bind] at h
    obtain ⟨b, hb, h⟩ := Option.bind_eq_some.mp h
    obtain ⟨bs', hbs', h⟩ := Option.bind_eq_some.mp h
    simp only [Option.pure_def, Option.some_inj] at h
    subst h
    obtain ⟨hfirst, hpair⟩ := ih (idx + 1) (some b) bs' hbs'
    have hball : ∀ x ∈ bs', dtLt b.datetime x.datetime = some true := hfirst b rfl
    refine ⟨?_, List.Pairwise.cons hball hpair⟩
    intro p hp x hx
    have hpb : dtLt p.datetime b.datetime = some true :=
      (mkBackup_spec hb).2.2.2.2.2.2.2 p hp
    rcases List.mem_cons.mp hx with hxb | hxrest
    · rw [hxb]; exact hpb
    · exact dtLt_trans hpb (hball x hxrest)

/-- Because `is_last` is computed as `_index == len(dirs)` and `_index`
never reaches `len(dirs)`, every record the loop produces has
`is_last = false`. -/
theorem buildBackups_is_last (ra rd db : DateTime) (total : Nat) :
    ∀ (dirs : List Str) (idx : Nat) (prev : Option Backup) (bs : List Backup),
      buildBackups ra rd db total dirs idx prev = some bs →
      idx + dirs.length = total →
      ∀ x ∈ bs, x.is_last = false := by
  intro dirs
  induction dirs with
  | nil =>
    intro idx prev bs h _
    unfold buildBackups at h
    injection h with h'
    subst h'
    simp
  | cons d rest ih =>
    intro idx prev bs h hlen
    unfold buildBackups at h
    simp only [Option.bind_eq_bind] at h
    obtain ⟨b, hb, h⟩ := Option.bind_eq_some.mp h
    obtain ⟨bs', hbs', h⟩ := Option.bind_eq_some.mp h
    simp only [Option.pure_def, Option.some_inj] at h
    subst h
    intro x hx
    rcases List.mem_cons.mp hx with hxb | hxrest
    · have hlast : b.is_last = (idx == total) := (mkBackup_spec hb).2.1
      rw [hxb, hlast]
      simp only [List.length_cons] at hlen
      simp only [beq_eq_false_iff_ne, ne_eq]
      omega
    · exact ih (idx + 1) (some b) bs' hbs' (by simp only [List.length_cons] at hlen; omega)
        x hxrest

/-! ## The claims -/

/-- C1: the spec says `Worker.get_backups` marks exactly the final
(lexicographically greatest) record with `is_last = true` and consequently
never classifies the latest record as prune. The code computes `is_last` as
`_index == len(dirs)`, which no index ever reaches, so every record gets
`is_last = false` and the latest record *is* pruned whenever the retention
cascade does not otherwise protect it — contradicting the repository's own
test `test_worker_get_backups_count_and_order` (which expects the final
record to carry `is_last == True`) and `test_worker_get_backups_prune_weekly`
(which expects "last is prune-protected"). This theorem evaluates the code
at such a listing: both records come back with `is_last = false`, and the
chronologically latest one has `prune = true`. -/
theorem claim_C1 :
    (get_backups ["1970-01-06T00:00:00+00:00".toList, "1970-01-05T00:00:00+00:00".toList]
        thresholdY2000 thresholdY2000 earliest_time).map
      (fun l => l.map (fun b => (b.is_last, b.prune)))
      = some [(false, false), (false, true)] ∧
    (∀ entries ra rd db bs, get_backups entries ra rd db = some bs →
      ∀ x ∈ bs, x.is_last = false) := by
  constructor
  · decide
  · intro entries ra rd db bs h x hx
    unfold get_backups at h
    exact buildBackups_is_last ra rd db _ _ 0 none bs h (by simp) x hx

/-- C2 counterexample: the claim states `decay = (when < decay_before) ∧
¬is_last` for every record; but `Backup.__init__` computes
`self.decay = self.is_before(decay_before)` without consulting `is_last`,
so a record constructed with `is_last = True` and an old timestamp still
has `decay = True` (`1970-01-01` against `decay_before = 1970-01-02`). -/
theorem counterexample_C2 :
    ((mkBackup "1970-01-01".toList naiveEarliest naiveEarliest naiveDecayThreshold
        none true).map (fun b => (b.decay, b.is_last))) = some (true, true) ∧
    ((mkBackup "1970-01-01".toList naiveEarliest naiveEarliest naiveDecayThreshold
        none true).map (fun b => dtLt b.datetime naiveDecayThreshold)) =
      some (some true) := by
  constructor
  · decide
  · decide

/-- C2 (amended): for every successfully constructed `Backup` record, the
`decay` flag equals `when < decay_before`, independently of `is_last` (the
repository's `test_worker_get_backups_decay` also expects the latest backup
to decay when old enough). -/
theorem claim_C2 {name : Str} {ra rd db : DateTime} {prev : Option Backup}
    {last : Bool} {b : Backup} (h : mkBackup name ra rd db prev last = some b) :
    dtLt b.datetime db = some b.decay :=
  (mkBackup_spec h).2.2.2.1

theorem claim_C2_witness :
    ∃ b, mkBackup "1970-01-01".toList naiveEarliest naiveEarliest
        naiveDecayThreshold none true = some b ∧
      dtLt b.datetime naiveDecayThreshold = some b.decay := by
  cases heq : mkBackup "1970-01-01".toList naiveEarliest naiveEarliest
      naiveDecayThreshold none true with
  | none => exact absurd heq (by decide)
  | some b => exact ⟨b, rfl, claim_C2 heq⟩

/-- C3: for every successfully constructed `Backup` record, `prune` is the
negation of the retention cascade — retained iff `is_last`, or
`when ≥ retain_all_after`, or (`when ≥ retain_daily_after` and `is_daily`),
or (none of those and `is_weekly`) — where the two `is_retain_*` flags are
the `≥`-with-equality comparisons against the thresholds. -/
theorem claim_C3 {name : Str} {ra rd db : DateTime} {prev : Option Backup}
    {last : Bool} {b : Backup} (h : mkBackup name ra rd db prev last = some b) :
    b.prune = !(b.is_last || b.is_retain_all || (b.is_retain_daily && b.is_daily) ||
      (!b.is_last && !b.is_retain_all && !b.is_retain_daily && b.is_weekly)) ∧
    dtLe ra b.datetime = some b.is_retain_all ∧
    dtLe rd b.datetime = some b.is_retain_daily := by
  obtain ⟨_, _, _, _, hral, hrdl, hprune, _⟩ := mkBackup_spec h
  refine ⟨?_, hral, hrdl⟩
  rw [hprune]
  exact retain_cascade b.is_last b.is_retain_all b.is_retain_daily b.is_daily b.is_weekly

theorem claim_C3_witness :
    ∃ b, mkBackup "1970-01-01".toList naiveEarliest naiveEarliest
        naiveDecayThreshold none false = some b ∧
      b.prune = !(b.is_last || b.is_retain_all || (b.is_retain_daily && b.is_daily) ||
        (!b.is_last && !b.is_retain_all && !b.is_retain_daily && b.is_weekly)) ∧
      dtLe naiveEarliest b.datetime = some b.is_retain_all := by
  cases heq : mkBackup "1970-01-01".toList naiveEarliest naiveEarliest
      naiveDecayThreshold none false with
  | none => exact absurd heq (by decide)
  | some b => exact ⟨b, rfl, (claim_C3 heq).1, (claim_C3 heq).2.1⟩

/-- With no pre-existing lockfile, every path through `make_backup` leaves
the lockfile absent (errors before acquisition never created it; paths
after acquisition run `Lock.__exit__`). -/
theorem make_backup_noLock (env : BackupEnv) (lf : Str) :
    (make_backup env lf false).lockfileExists = false := by
  unfold make_backup lockEnter lockExit
  split_ifs <;> rfl

/-- With a pre-existing lockfile, `make_backup` can only fail before
acquisition (unreachable source, bad backup dir, or `LockedError`). -/
theorem make_backup_locked_only (env : BackupEnv) (lf : Str) :
    (make_backup env lf true).result ≠ .ok () ∧
    (∀ e, (make_backup env lf true).result = .error e →
      isPostAcquisition e = false) := by
  have hle : lockEnter lf true = .error (.locked lf) := rfl
  unfold make_backup
  rw [hle]
  by_cases hr : (!env.reachable) = true
  · rw [if_pos hr]
    refine ⟨by simp, fun e he => ?_⟩
    cases he
    rfl
  · rw [if_neg hr]
    by_cases hs : (!env.syncdirOk) = true
    · rw [if_pos hs]
      refine ⟨by simp, fun e he => ?_⟩
      cases he
      rfl
    · rw [if_neg hs]
      refine ⟨by simp, fun e he => ?_⟩
      cases he
      rfl

/-- C4: if the sync lockfile already exists when `Worker.make_backup`
reaches lock acquisition (reachability and the syncdir assertion having
passed), the call fails with `LockedError` naming the lockfile and rsync is
never invoked; and whenever `make_backup` terminates normally or with an
error raised after acquisition, the lockfile is absent. -/
theorem claim_C4 (env : BackupEnv) (lockfile : Str) (st : Bool) :
    (st = true → env.reachable = true → env.syncdirOk = true →
      (make_backup env lockfile st).result = .error (.locked lockfile) ∧
      (make_backup env lockfile st).rsyncInvoked = false) ∧
    (∀ e, ((make_backup env lockfile st).result = .ok () ∨
        ((make_backup env lockfile st).result = .error e ∧ isPostAcquisition e = true)) →
      (make_backup env lockfile st).lockfileExists = false) := by
  constructor
  · intro hst hr hso
    subst hst
    constructor <;> simp [make_backup, lockEnter, hr, hso]
  · intro e hcase
    cases st with
    | false => exact make_backup_noLock env lockfile
    | true =>
      exfalso
      obtain ⟨hnok, hpost⟩ := make_backup_locked_only env lockfile
      rcases hcase with hok | ⟨herr, hpa⟩
      · exact hnok hok
      · rw [hpost e herr] at hpa
        exact absurd hpa (by simp)

theorem claim_C4_witness :
    (make_backup ⟨true, true, true, true, true, true, false, false, false⟩
        "/v/.sync_lock".toList true).result =
      .error (.locked "/v/.sync_lock".toList) ∧
    (make_backup ⟨true, true, true, true, true, true, false, false, false⟩
        "/v/.sync_lock".toList true).rsyncInvoked = false ∧
    (make_backup ⟨true, true, false, true, true, true, false, false, false⟩
        "/v/.sync_lock".toList false).lockfileExists = false := by
  refine ⟨?_, ?_, ?_⟩
  · exact ((claim_C4 ⟨true, true, true, true, true, true, false, false, false⟩
      "/v/.sync_lock".toList true).1 rfl rfl rfl).1
  · exact ((claim_C4 ⟨true, true, true, true, true, true, false, false, false⟩
      "/v/.sync_lock".toList true).1 rfl rfl rfl).2
  · exact (claim_C4 ⟨true, true, false, true, true, true, false, false, false⟩
      "/v/.sync_lock".toList false).2 .syncFailed (Or.inr ⟨rfl, rfl⟩)

/-- C5: over an absolute base path, `BaseVolume._path_join` either returns
a normalized absolute path whose components extend the base's components
(the base is a whole-component prefix of the result), or raises
`RuntimeError`; it never returns a path outside the base and never lets the
`commonpath` `ValueError` escape. -/
theorem claim_C5 (basePath sub : Str) (hb : startsSlash basePath = true) :
    (∀ r, path_join basePath sub = .ok r →
      startsSlash r = true ∧ listStarts (comps basePath) (comps r) = true) ∧
    (∀ e, path_join basePath sub = .error e → e = .runtimeError) :=
  path_join_confined basePath sub hb

theorem claim_C5_witness :
    startsSlash "/foo/bar".toList = true ∧
    path_join "/foo/bar".toList "../bar/baz".toList = .ok "/foo/bar/baz".toList ∧
    startsSlash "/foo/bar/baz".toList = true ∧
    listStarts (comps "/foo/bar".toList) (comps "/foo/bar/baz".toList) = true := by
  refine ⟨by decide, rfl, ?_, ?_⟩
  · exact ((claim_C5 "/foo/bar".toList "../bar/baz".toList (by decide)).1
      "/foo/bar/baz".toList rfl).1
  · exact ((claim_C5 "/foo/bar".toList "../bar/baz".toList (by decide)).1
      "/foo/bar/baz".toList rfl).2

/-- C6: for every pair of datetimes on the same offset with `a < b` (the
functions' asserted precondition), `is_same_hour`/`is_same_day`/
`is_same_week` return true iff the two instants fall in the same calendar
hour / calendar day / ISO week *and* `b - a` is strictly below one
hour/day/week; in particular two times sharing the clock-hour but 24h apart
are not same-hour (the difference clause fails). -/
theorem claim_C6 (a b : DateTime) (ha : Valid a) (hb : Valid b)
    (hoff : a.utcoffset = b.utcoffset) (hlt : dtLt a b = some true) :
    (is_same_hour a b = some true ↔
      (specSameCalendarHour a b ∧ dtKey b - dtKey a < 3600)) ∧
    (is_same_day a b = some true ↔
      (specSameCalendarDay a b ∧ dtKey b - dtKey a < 86400)) ∧
    (is_same_week a b = some true ↔
      (specSameISOWeek a b ∧ dtKey b - dtKey a < 604800)) := by
  have hc := (dtLt_key hlt).1
  have hk := (dtLt_key hlt).2
  have hsub := dtSub_of_compat hc
  have hkeynaive := dtKey_sub_of_offset_eq hoff
  have hnlt : naiveEpoch a < naiveEpoch b := by omega
  refine ⟨?_, ?_, ?_⟩
  · rw [is_same_hour_eval hlt hsub]
    constructor
    · intro h
      have h' := Option.some_inj.mp h
      rw [Bool.and_eq_true, beq_iff_eq, decide_eq_true_eq] at h'
      exact ⟨sameCalendarHour_of_code ha hb h'.1 hnlt (by omega), h'.2⟩
    · rintro ⟨⟨_, _, _, hh⟩, hdiff⟩
      simp [hh, hdiff]
  · rw [is_same_day_eval hlt hsub]
    constructor
    · intro h
      have h' := Option.some_inj.mp h
      rw [Bool.and_eq_true, beq_iff_eq, decide_eq_true_eq] at h'
      exact ⟨sameCalendarDay_of_code ha hb h'.1 hnlt (by omega), h'.2⟩
    · rintro ⟨⟨_, _, hd⟩, hdiff⟩
      simp [hd, hdiff]
  · rw [is_same_week_eval hlt hsub]
    constructor
    · intro h
      have h' := Option.some_inj.mp h
      rw [Bool.and_eq_true, beq_iff_eq, decide_eq_true_eq] at h'
      refine ⟨⟨?_, h'.1⟩, h'.2⟩
      exact isoYear_eq_of_week_eq ha hb hnlt (by omega) h'.1
    · rintro ⟨⟨_, hww⟩, hdiff⟩
      simp only [isoWeek] at *
      simp [hww, hdiff]

theorem claim_C6_witness :
    (is_same_hour ⟨1970, 1, 1, 10, 0, 0, none⟩ ⟨1970, 1, 1, 10, 59, 59, none⟩ = some true ↔
      (specSameCalendarHour ⟨1970, 1, 1, 10, 0, 0, none⟩ ⟨1970, 1, 1, 10, 59, 59, none⟩ ∧
        dtKey ⟨1970, 1, 1, 10, 59, 59, none⟩ - dtKey ⟨1970, 1, 1, 10, 0, 0, none⟩ < 3600)) ∧
    (is_same_day ⟨1970, 1, 1, 10, 0, 0, none⟩ ⟨1970, 1, 1, 10, 59, 59, none⟩ = some true ↔
      (specSameCalendarDay ⟨1970, 1, 1, 10, 0, 0, none⟩ ⟨1970, 1, 1, 10, 59, 59, none⟩ ∧
        dtKey ⟨1970, 1, 1, 10, 59, 59, none⟩ - dtKey ⟨1970, 1, 1, 10, 0, 0, none⟩ < 86400)) ∧
    (is_same_week ⟨1970, 1, 1, 10, 0, 0, none⟩ ⟨1970, 1, 1, 10, 59, 59, none⟩ = some true ↔
      (specSameISOWeek ⟨1970, 1, 1, 10, 0, 0, none⟩ ⟨1970, 1, 1, 10, 59, 59, none⟩ ∧
        dtKey ⟨1970, 1, 1, 10, 59, 59, none⟩ - dtKey ⟨1970, 1, 1, 10, 0, 0, none⟩ < 604800)) :=
  claim_C6 ⟨1970, 1, 1, 10, 0, 0, none⟩ ⟨1970, 1, 1, 10, 59, 59, none⟩
    (by decide) (by decide) rfl (by decide)

/-- C7 counterexample: the claim quantifies over *every* datetime `a`, but
for `a = 1970-01-01T00:00:01` the instant 23h59m59s later is
`1970-01-02T00:00:00`, whose day field differs, so `is_same_day` returns
false (and 6d23h59m59s later is in the next ISO week, so `is_same_week`
returns false as well). Only the two "false" halves of the claim are
universally true. -/
theorem counterexample_C7 :
    Valid justPastMidnight ∧ Valid nextMidnight ∧ Valid nextWeekMidnight ∧
    dtSub nextMidnight justPastMidnight = some 86399 ∧
    is_same_day justPastMidnight nextMidnight = some false ∧
    dtSub nextWeekMidnight justPastMidnight = some 604799 ∧
    is_same_week justPastMidnight nextWeekMidnight = some false := by
  refine ⟨by decide, by decide, by decide, by decide, by decide, by decide, by decide⟩

/-- C7 (amended): for every start-of-day instant `a`, `is_same_day(a, b)`
is true at `b = a + 23h59m59s`; for *every* `a` it is false at
`b = a + 24h`; for every Monday-midnight instant `a` (start of the ISO
week), `is_same_week(a, b)` is true at `b = a + 6d23h59m59s`; and for every
`a` it is false at `b = a + 7d`. (`b` ranges over valid datetimes on the
same offset at exactly that distance, which is how `a + timedelta` is
expressed in this model.) -/
theorem claim_C7 (a b : DateTime) (ha : Valid a) (hb : Valid b)
    (hoff : a.utcoffset = b.utcoffset) :
    (a.hour = 0 ∧ a.minute = 0 ∧ a.second = 0 →
      dtSub b a = some 86399 → is_same_day a b = some true) ∧
    (dtSub b a = some 86400 → is_same_day a b = some false) ∧
    (a.hour = 0 ∧ a.minute = 0 ∧ a.second = 0 → (isocalendar a).2.2 = 1 →
      dtSub b a = some 604799 → is_same_week a b = some true) ∧
    (dtSub b a = some 604800 → is_same_week a b = some false) := by
  have hc := dtCompat_of_offset_eq hoff
  have hsub' := dtSub_of_compat hc
  refine ⟨fun hmid hsub => same_day_aligned ha hb hoff hmid hsub, ?_,
    fun hmid hwd hsub => same_week_aligned ha hb hoff hmid hwd hsub, ?_⟩
  · intro hsub
    have hd : dtKey b - dtKey a = 86400 := by
      rw [hsub'] at hsub
      injection hsub
    have hlt : dtLt a b = some true := dtLt_of_key hc (by omega)
    rw [is_same_day_eval hlt hsub]
    simp
  · intro hsub
    have hd : dtKey b - dtKey a = 604800 := by
      rw [hsub'] at hsub
      injection hsub
    have hlt : dtLt a b = some true := dtLt_of_key hc (by omega)
    rw [is_same_week_eval hlt hsub]
    simp

theorem claim_C7_witness :
    is_same_day mondayMidnight mondayAlmostEnd = some true ∧
    is_same_day mondayMidnight tuesdayMidnight = some false ∧
    is_same_week mondayMidnight sundayAlmostEnd = some true ∧
    is_same_week mondayMidnight nextMonday = some false := by
  refine ⟨?_, ?_, ?_, ?_⟩
  · exact (claim_C7 mondayMidnight mondayAlmostEnd (by decide) (by decide) rfl).1
      (by decide) (by decide)
  · exact (claim_C7 mondayMidnight tuesdayMidnight (by decide) (by decide) rfl).2.1
      (by decide)
  · exact (claim_C7 mondayMidnight sundayAlmostEnd (by decide) (by decide) rfl).2.2.1
      (by decide) (by decide) (by decide)
  · exact (claim_C7 mondayMidnight nextMonday (by decide) (by decide) rfl).2.2.2
      (by decide)

/-- C8 counterexample: the claim places `--checksum`/`--dry-run` before the
excludes and requires `SRC/ DST` to be the last two argv elements (with
separate `-a -z -v` flags); the source instead appends `--checksum` and
`--dry-run` *after* `SRC/ DST` (and passes `-azv` as one token), so with
`checksum=True` the vectors differ. -/
theorem counterexample_C8 :
    rsync_args "src" "dst" [] true false false ≠
      specRsyncArgv "src" "dst" [] true false := by
  decide

/-- C8 (amended): the argument vector is
`rsync --human-readable --itemize-changes --stats -azv --sparse --delete
--delete-excluded`, one `--exclude=P` per exclude entry in order, then
`SRC/ DST`, then `--checksum` iff requested, then `--dry-run` iff requested
(so `SRC/ DST` are the final two elements only when neither flag is set);
`progress` contributes nothing to argv. -/
theorem claim_C8 (source target : String) (exclude : List String)
    (checksum progress dry_run : Bool) :
    rsync_args source target exclude checksum progress dry_run =
      ["rsync", "--human-readable", "--itemize-changes", "--stats",
       "-azv", "--sparse", "--delete", "--delete-excluded"]
      ++ exclude.map (fun p => "--exclude=" ++ p)
      ++ [source ++ "/", target]
      ++ (if checksum then ["--checksum"] else [])
      ++ (if dry_run then ["--dry-run"] else []) := by
  unfold rsync_args
  cases checksum <;> cases dry_run <;> simp

/-- C9: whenever `Worker.get_backups` returns a list (rather than raising),
every record at an earlier position has a strictly earlier parsed timestamp
than every record at a later position — the `is_same_day` assert
`previous.datetime < self.datetime` guards every adjacent pair, and
strictness propagates by transitivity. -/
theorem claim_C9 (entries : List Str) (ra rd db : DateTime) (bs : List Backup)
    (h : get_backups entries ra rd db = some bs) :
    List.Pairwise (fun x y => dtLt x.datetime y.datetime = some true) bs := by
  unfold get_backups at h
  exact (buildBackups_chain ra rd db _ _ 0 none bs h).2

theorem claim_C9_witness :
    ∃ bs, get_backups ["1970-01-02".toList, "1970-01-01".toList]
        naiveEarliest naiveEarliest naiveEarliest = some bs ∧
      List.Pairwise (fun x y => dtLt x.datetime y.datetime = some true) bs := by
  cases heq : get_backups ["1970-01-02".toList, "1970-01-01".toList]
      naiveEarliest naiveEarliest naiveEarliest with
  | none => exact absurd heq (by decide)
  | some bs => exact ⟨bs, rfl, claim_C9 _ _ _ _ bs heq⟩

/-- C10: `Lock.__exit__` removes the lockfile unconditionally — its
behaviour does not depend on the exception information — and when the
lockfile was removed externally during the critical section, `os.remove`
raises `FileNotFoundError` instead of succeeding silently. -/
theorem claim_C10 (exc exc' : Option WorkerErr) (st : Bool) :
    lockExit exc st = lockExit exc' st ∧
    lockExit exc true = .ok false ∧
    lockExit exc false = .error .fileNotFound :=
  ⟨rfl, rfl, rfl⟩

end SnapshotBackup
